import Mathlib

/-!
# Verification of the recipe assistant core (shallow embedding)

This file embeds the core logic of the client-side recipe assistant
(main variant, `index.tsx` of the bundled app): the ingredient-quantity
scaler `scaleIngredientLine`, the persistent store operations over
saved recipes / shopping list / draft, and the retry/backoff wrapper
`retryWithBackoff`.  Browser-supplied effects are made explicit:
`localStorage` blobs become values threaded through the functions,
`confirm()` becomes a boolean parameter, `JSON.parse` becomes an
explicit fallible parser parameter, `Math.random` id generation becomes
an id-supply parameter, and JS floating-point numbers become `ℚ`.
-/

namespace RecipeApp

/-! ## Data model (`interface Recipe`, `interface ShoppingItem`) -/

structure Nutrition where
  calories : String
  protein : String
  carbs : String
  fat : String
deriving DecidableEq

structure Recipe where
  id : String
  recipeName : String
  description : String
  ingredients : List String
  instructions : List String
  servings : Nat
  difficulty : Option String
  createdAt : Nat
  nutrition : Option Nutrition
deriving DecidableEq

structure ShoppingItem where
  id : String
  text : String
  completed : Bool
deriving DecidableEq

/-- The draft record persisted under the `recipeDraft` key. -/
structure RecipeDraft where
  prompt : String
  difficulty : String
  servings : String
  wishes : String
deriving DecidableEq

/-- JS `String.prototype.toLowerCase`, character by character. -/
def lowerStr (s : String) : String := String.mk (s.toList.map Char.toLower)

/-- JS `String.prototype.trim` on the character list: drop whitespace
from both ends. -/
def trimChars (l : List Char) : List Char :=
  ((l.dropWhile Char.isWhitespace).reverse.dropWhile Char.isWhitespace).reverse

/-- JS `String.prototype.trim`. -/
def strTrim (s : String) : String := String.mk (trimChars s.toList)

/-! ## Shopping list (`getShoppingList`, `addToShoppingList`,
`toggleShoppingItem`)

`getShoppingList` reads the `shoppingList` blob; `data ? JSON.parse(data) : []`
inside `try { .. } catch { return [] }`.  The blob is `none` when the key is
absent; the JSON parser is passed explicitly and may fail. -/

def getShoppingList (blob : Option String)
    (parse : String → Except String (List ShoppingItem)) : List ShoppingItem :=
  match blob with
  | none => []
  | some data =>
    if data = "" then []
    else
      match parse data with
      | .ok l => l
      | .error _ => []

/-- Loop body of `addToShoppingList`: for each incoming text, push a fresh
item unless some current item has the same text case-insensitively.
`mkId` models the `Math.random().toString(36).substr(2, 9)` id supply,
`k` counts how many ids were consumed so far. -/
def addToShoppingListAux (mkId : Nat → String) :
    List String → Nat → List ShoppingItem → List ShoppingItem
  | [], _, cur => cur
  | t :: ts, k, cur =>
    if cur.any (fun item => lowerStr item.text == lowerStr t) then
      addToShoppingListAux mkId ts k cur
    else
      addToShoppingListAux mkId ts (k + 1) (cur ++ [⟨mkId k, t, false⟩])

/-- `addToShoppingList(items)` acting on the stored list. -/
def addToShoppingList (mkId : Nat → String) (items : List String)
    (current : List ShoppingItem) : List ShoppingItem :=
  addToShoppingListAux mkId items 0 current

/-- `toggleShoppingItem(id)`: `list.find(i => i.id === id)` locates the first
item with this id; its `completed` flag is flipped in place.  When no item
matches, the list is left as it is (the JS code does not even re-save it). -/
def toggleShoppingItem (id : String) : List ShoppingItem → List ShoppingItem
  | [] => []
  | x :: xs =>
    if x.id == id then { x with completed := !x.completed } :: xs
    else x :: toggleShoppingItem id xs

/-- The shopping-list invariant: no two items share their `text`
case-insensitively. -/
def noCaseDup (l : List ShoppingItem) : Prop :=
  l.Pairwise (fun a b => lowerStr a.text ≠ lowerStr b.text)

instance (l : List ShoppingItem) : Decidable (noCaseDup l) :=
  inferInstanceAs (Decidable (l.Pairwise _))

/-! ## Saved recipes (`getSavedRecipes`, `saveRecipeToStorage`) -/

def getSavedRecipes (blob : Option String)
    (parse : String → Except String (List Recipe)) : List Recipe :=
  match blob with
  | none => []
  | some data =>
    if data = "" then []
    else
      match parse data with
      | .ok l => l
      | .error _ => []

/-- `saveRecipeToStorage(r)` acting on the stored collection.  The blocking
`confirm("Überschreiben?")` dialog is the boolean `confirmOverwrite`.
Returns the boolean result of the JS function together with the collection
as stored afterwards.  Note the name comparison is `===`, i.e. exact. -/
def saveRecipeToStorage (confirmOverwrite : Bool) (r : Recipe)
    (saved : List Recipe) : Bool × List Recipe :=
  if saved.any (fun sr => sr.recipeName == r.recipeName) then
    if !confirmOverwrite then (false, saved)
    else (true, saved.set (saved.findIdx (fun sr => sr.recipeName == r.recipeName)) r)
  else (true, saved ++ [r])

/-! ## Draft (`saveDraft`, `clearDraft`, and the `btn-generate` handler) -/

/-- `saveDraft()`: if the prompt is truthy and trims to something truthy,
overwrite the single `recipeDraft` record; otherwise remove it.  The stored
state is an `Option` because the store holds at most the one record under
its fixed key. -/
def saveDraft (p difficulty servings wishes : String)
    (_stored : Option RecipeDraft) : Option RecipeDraft :=
  if p ≠ "" ∧ strTrim p ≠ "" then some ⟨p, difficulty, servings, wishes⟩
  else none

/-- `clearDraft()` removes the `recipeDraft` record. -/
def clearDraft (_stored : Option RecipeDraft) : Option RecipeDraft := none

/-- Effect of the `btn-generate` click handler on the stored draft:
with an empty prompt it only shows a toast; otherwise, when `callChef`
produced a recipe (`some`), the handler renders it and calls `clearDraft`;
when generation failed (`none`) the draft is untouched. -/
def generateClickDraftEffect (p : String) (chefResult : Option Recipe)
    (stored : Option RecipeDraft) : Option RecipeDraft :=
  if p = "" then stored
  else
    match chefResult with
    | some _ => clearDraft stored
    | none => stored

/-! ## Retry/backoff wrapper (`retryWithBackoff`) -/

/-- Does `pat` occur at the start of `s`? -/
def startsWithSeq : List Char → List Char → Bool
  | [], _ => true
  | _ :: _, [] => false
  | p :: ps, c :: cs => p == c && startsWithSeq ps cs

/-- Does `pat` occur anywhere in `s`?  (JS `String.prototype.includes`.) -/
def containsSeq (pat : List Char) : List Char → Bool
  | [] => startsWithSeq pat []
  | c :: cs => startsWithSeq pat (c :: cs) || containsSeq pat cs

/-- `errorStr.includes("429") || errorStr.includes("Quota")`. -/
def isRateLimitError (msg : String) : Bool :=
  containsSeq "429".toList msg.toList || containsSeq "Quota".toList msg.toList

deriving instance DecidableEq for Except

/-- Observable outcome of one `retryWithBackoff` run: the value returned or
error thrown, how many times the operation was invoked, and the successive
waits (in ms) that were performed between attempts. -/
structure RetryRun (T : Type) where
  result : Except String T
  calls : Nat
  waits : List Nat
deriving DecidableEq

/-- The `for (let i = 0; i < maxRetries; i++)` loop of `retryWithBackoff`,
with `remaining = maxRetries - i` iterations left.  `op i` is the outcome of
the `i`-th invocation of the operation; errors are their messages.  On a
rate-limit error with `i < maxRetries - 1` the loop waits `delay` ms,
doubles `delay` and retries; any other error is rethrown at once.  Only if
the loop runs out is the terminal error thrown. -/
def retryLoopF {T : Type} (op : Nat → Except String T) (maxRetries : Nat) :
    Nat → Nat → Nat → List Nat → RetryRun T
  | 0, i, _delay, waits => ⟨.error "Server-Limit erreicht.", i, waits.reverse⟩
  | remaining + 1, i, delay, waits =>
    match op i with
    | .ok t => ⟨.ok t, i + 1, waits.reverse⟩
    | .error e =>
      if isRateLimitError e = true ∧ i < maxRetries - 1 then
        retryLoopF op maxRetries remaining (i + 1) (delay * 2) (delay :: waits)
      else ⟨.error e, i + 1, waits.reverse⟩

/-- `retryWithBackoff(operation, maxRetries)` with `delay` starting at
3000 ms. -/
def retryWithBackoff {T : Type} (op : Nat → Except String T)
    (maxRetries : Nat) : RetryRun T :=
  retryLoopF op maxRetries maxRetries 0 3000 []

/-! ## Ingredient scaling (`scaleIngredientLine`)

The JS function rewrites every substring matching `(\d+(?:[.,]\d+)?)` in the
line.  We model the regex pass as a scanner producing tokens (plain
characters and number matches), and the replacement callback as
`transformNum`. -/

/-- Value of a digit character (`'0'` … `'9'`). -/
def digitVal (c : Char) : Nat := c.toNat - 48

/-- Numeric value of a digit string, as `parseFloat` reads the integer or
fraction digits. -/
def digitsVal (l : List Char) : Nat :=
  l.foldl (fun a c => 10 * a + digitVal c) 0

/-- Decimal digit characters of `n`, most significant first; fuel-driven so
that it is structurally recursive (the fuel `n` itself always suffices). -/
def digitsOfCore : Nat → Nat → List Char → List Char
  | 0, _, acc => acc
  | _ + 1, 0, acc => acc
  | fuel + 1, n + 1, acc =>
    digitsOfCore fuel ((n + 1) / 10) (Nat.digitChar ((n + 1) % 10) :: acc)

/-- Decimal representation of `n`, as JS number-to-string formatting
produces it for a whole value. -/
def digitsOf (n : Nat) : List Char :=
  if n = 0 then ['0'] else digitsOfCore n n []

/-- One regex match of `(\d+(?:[.,]\d+)?)`: the integer digits and the
optional decimal separator with its fraction digits. -/
structure NumMatch where
  intDigits : List Char
  frac : Option (Char × List Char)
deriving DecidableEq

/-- A token of the scanned line: an unmatched character or a number match. -/
inductive Tok where
  | ch (c : Char)
  | num (m : NumMatch)
deriving DecidableEq

/-- `match.includes(',')`: only the separator of a match can be a comma. -/
def numHasComma (m : NumMatch) : Bool :=
  match m.frac with
  | some (s, _) => s == ','
  | none => false

/-- `parseFloat(match.replace(',', '.'))`: the numeric value of a match. -/
def matchValue (m : NumMatch) : ℚ :=
  match m.frac with
  | none => (digitsVal m.intDigits : ℚ)
  | some (_, d) => (digitsVal m.intDigits : ℚ) + (digitsVal d : ℚ) / (10 : ℚ) ^ d.length

/-- `x.toFixed(1)` of a nonnegative value, seen as an integer number of
tenths: round half up to one decimal place. -/
def roundTenths (q : ℚ) : Nat := (Int.floor (q * 10 + 1 / 2)).toNat

/-- The replacement callback: scale the parsed value by `factor`, format
with `toFixed(1)`, strip a trailing `.0`, and restore `,` as the separator
when the original match used one. -/
def transformNum (factor : ℚ) (m : NumMatch) : NumMatch :=
  let n := roundTenths (matchValue m * factor)
  if n % 10 = 0 then ⟨digitsOf (n / 10), none⟩
  else ⟨digitsOf (n / 10), some (if numHasComma m then ',' else '.', [Nat.digitChar (n % 10)])⟩

/-- Is the first character a digit?  (Used for the `[.,]\d` lookahead.) -/
def headIsDigit : List Char → Bool
  | [] => false
  | c :: _ => c.isDigit

/-- The regex scan of the line, fuel-driven (the length of the list always
suffices as fuel): at a digit, take the greedy digit run, optionally a
separator followed by a greedy digit run, and emit a number token;
any other character is emitted verbatim. -/
def scanF : Nat → List Char → List Tok
  | _, [] => []
  | 0, _ :: _ => []
  | fuel + 1, c :: cs =>
    if c.isDigit then
      match cs.dropWhile Char.isDigit with
      | [] => [Tok.num ⟨c :: cs.takeWhile Char.isDigit, none⟩]
      | s :: r2 =>
        if (s == '.' || s == ',') && headIsDigit r2 then
          Tok.num ⟨c :: cs.takeWhile Char.isDigit, some (s, r2.takeWhile Char.isDigit)⟩ ::
            scanF fuel (r2.dropWhile Char.isDigit)
        else
          Tok.num ⟨c :: cs.takeWhile Char.isDigit, none⟩ :: scanF fuel (s :: r2)
    else
      Tok.ch c :: scanF fuel cs

/-- The regex scan of a line. -/
def scan (l : List Char) : List Tok := scanF l.length l

/-- The characters a number match occupies in the line. -/
def renderNum (m : NumMatch) : List Char :=
  m.intDigits ++
    (match m.frac with
     | none => []
     | some (s, d) => s :: d)

/-- Replacement of one token: plain characters are copied verbatim, number
matches go through the replacement callback. -/
def renderTok (factor : ℚ) : Tok → List Char
  | .ch c => [c]
  | .num m => renderNum (transformNum factor m)

/-- `scaleIngredientLine(line, fromS, toS)`: falsy or equal serving counts
are the identity fast path; otherwise every match of
`(\d+(?:[.,]\d+)?)` is rewritten with `factor = toS / fromS`. -/
def scaleIngredientLine (line : String) (fromS toS : Nat) : String :=
  if fromS = 0 ∨ toS = 0 ∨ fromS = toS then line
  else
    String.mk (((scan line.toList).map (renderTok ((toS : ℚ) / (fromS : ℚ)))).flatten)

/-- Well-formedness of a number match as the scanner produces it: nonempty
digit runs and a separator that is `'.'` or `','`. -/
def wfNum (m : NumMatch) : Bool :=
  !m.intDigits.isEmpty && m.intDigits.all Char.isDigit &&
    (match m.frac with
     | none => true
     | some (s, d) => (s == '.' || s == ',') && !d.isEmpty && d.all Char.isDigit)

/-! ## Concrete sample data used to instantiate the theorems -/

/-- A stored recipe named `"Pasta"`. -/
def pastaUpper : Recipe := ⟨"id1", "Pasta", "", [], [], 2, none, 0, none⟩

/-- An incoming recipe named `"pasta"`: same name up to case. -/
def pastaLower : Recipe := ⟨"id2", "pasta", "", [], [], 4, none, 7, none⟩

/-- An incoming recipe named exactly `"Pasta"`. -/
def pastaV2 : Recipe := ⟨"id3", "Pasta", "neu", [], [], 6, none, 9, none⟩

/-- A recipe named `"Pizza"`: no conflict with `"Pasta"`. -/
def pizzaRecipe : Recipe := ⟨"id4", "Pizza", "", [], [], 2, none, 1, none⟩

/-! ## Helper lemmas: decimal digits -/

theorem digitVal_digitChar (d : Nat) (hd : d < 10) : digitVal (Nat.digitChar d) = d := by
  interval_cases d <;> decide

theorem isDigit_digitChar (d : Nat) (hd : d < 10) : (Nat.digitChar d).isDigit = true := by
  interval_cases d <;> decide

theorem foldl_digits_start (l : List Char) (a : Nat) :
    l.foldl (fun a c => 10 * a + digitVal c) a =
      a * 10 ^ l.length + l.foldl (fun a c => 10 * a + digitVal c) 0 := by
  induction l generalizing a with
  | nil => simp
  | cons c cs ih =>
    simp only [List.foldl_cons, List.length_cons]
    rw [ih (10 * a + digitVal c), ih (10 * 0 + digitVal c)]
    ring

theorem digitsVal_cons (c : Char) (cs : List Char) :
    digitsVal (c :: cs) = digitVal c * 10 ^ cs.length + digitsVal cs := by
  simp only [digitsVal, List.foldl_cons]
  rw [foldl_digits_start]
  ring

theorem digitsVal_digitsOfCore : ∀ (fuel n : Nat) (acc : List Char), n ≤ fuel →
    digitsVal (digitsOfCore fuel n acc) = n * 10 ^ acc.length + digitsVal acc := by
  intro fuel
  induction fuel with
  | zero =>
    intro n acc h
    interval_cases n
    simp [digitsOfCore]
  | succ f ih =>
    intro n acc h
    cases n with
    | zero => simp [digitsOfCore]
    | succ m =>
      simp only [digitsOfCore]
      have hle : (m + 1) / 10 ≤ f :=
        Nat.lt_succ_iff.mp (Nat.lt_of_lt_of_le (Nat.div_lt_self (Nat.succ_pos m) (by norm_num)) h)
      rw [ih ((m + 1) / 10) _ hle, digitsVal_cons]
      simp only [List.length_cons]
      rw [digitVal_digitChar _ (Nat.mod_lt _ (by norm_num))]
      have hdm := Nat.div_add_mod (m + 1) 10
      calc (m + 1) / 10 * 10 ^ (acc.length + 1) + ((m + 1) % 10 * 10 ^ acc.length + digitsVal acc)
          = (10 * ((m + 1) / 10) + (m + 1) % 10) * 10 ^ acc.length + digitsVal acc := by ring
        _ = (m + 1) * 10 ^ acc.length + digitsVal acc := by rw [hdm]

theorem digitsVal_digitsOf (n : Nat) : digitsVal (digitsOf n) = n := by
  by_cases h : n = 0
  · subst h; decide
  · simp only [digitsOf, if_neg h]
    rw [digitsVal_digitsOfCore n n [] le_rfl]
    simp [digitsVal]

theorem digitsOfCore_all_digits : ∀ (fuel n : Nat) (acc : List Char),
    (∀ c ∈ acc, c.isDigit = true) → ∀ c ∈ digitsOfCore fuel n acc, c.isDigit = true := by
  intro fuel
  induction fuel with
  | zero => intro n acc h; simpa [digitsOfCore] using h
  | succ f ih =>
    intro n acc h
    cases n with
    | zero => simpa [digitsOfCore] using h
    | succ m =>
      simp only [digitsOfCore]
      apply ih
      intro c hc
      rcases List.mem_cons.mp hc with h1 | h2
      · subst h1; exact isDigit_digitChar _ (Nat.mod_lt _ (by norm_num))
      · exact h c h2

theorem digitsOf_all_digits (n : Nat) : ∀ c ∈ digitsOf n, c.isDigit = true := by
  by_cases h : n = 0
  · subst h; decide
  · simp only [digitsOf, if_neg h]
    exact digitsOfCore_all_digits n n [] (by simp)

theorem digitsOfCore_length : ∀ (fuel n : Nat) (acc : List Char),
    acc.length ≤ (digitsOfCore fuel n acc).length := by
  intro fuel
  induction fuel with
  | zero => intro n acc; simp [digitsOfCore]
  | succ f ih =>
    intro n acc
    cases n with
    | zero => simp [digitsOfCore]
    | succ m =>
      simp only [digitsOfCore]
      calc acc.length ≤ (Nat.digitChar ((m + 1) % 10) :: acc).length := by simp
        _ ≤ _ := ih ((m + 1) / 10) _

theorem digitsOf_ne_nil (n : Nat) : digitsOf n ≠ [] := by
  cases n with
  | zero => decide
  | succ m =>
    simp only [digitsOf, if_neg (Nat.succ_ne_zero m), digitsOfCore]
    intro hne
    have hl := digitsOfCore_length m ((m + 1) / 10) [Nat.digitChar ((m + 1) % 10)]
    rw [hne] at hl
    simp at hl

/-! ## Helper lemmas: digit runs under `takeWhile` / `dropWhile` -/

theorem takeWhile_all {p : Char → Bool} : ∀ (l : List Char), (∀ c ∈ l, p c = true) →
    l.takeWhile p = l := by
  intro l
  induction l with
  | nil => intro _; rfl
  | cons c cs ih =>
    intro h
    rw [List.takeWhile_cons, if_pos (h c (by simp))]
    rw [ih fun x hx => h x (by simp [hx])]

theorem dropWhile_all {p : Char → Bool} : ∀ (l : List Char), (∀ c ∈ l, p c = true) →
    l.dropWhile p = [] := by
  intro l
  induction l with
  | nil => intro _; rfl
  | cons c cs ih =>
    intro h
    rw [List.dropWhile_cons, if_pos (h c (by simp))]
    exact ih fun x hx => h x (by simp [hx])

theorem takeWhile_run {p : Char → Bool} : ∀ (l1 : List Char) (x : Char) (l2 : List Char),
    (∀ c ∈ l1, p c = true) → p x = false → (l1 ++ x :: l2).takeWhile p = l1 := by
  intro l1
  induction l1 with
  | nil =>
    intro x l2 _ hx
    simp [List.takeWhile_cons, hx]
  | cons c cs ih =>
    intro x l2 h hx
    simp only [List.cons_append, List.takeWhile_cons, if_pos (h c (by simp))]
    rw [ih x l2 (fun y hy => h y (by simp [hy])) hx]

theorem dropWhile_run {p : Char → Bool} : ∀ (l1 : List Char) (x : Char) (l2 : List Char),
    (∀ c ∈ l1, p c = true) → p x = false → (l1 ++ x :: l2).dropWhile p = x :: l2 := by
  intro l1
  induction l1 with
  | nil =>
    intro x l2 _ hx
    simp [List.dropWhile_cons, hx]
  | cons c cs ih =>
    intro x l2 h hx
    simp only [List.cons_append, List.dropWhile_cons, if_pos (h c (by simp))]
    exact ih x l2 (fun y hy => h y (by simp [hy])) hx

/-! ## Helper lemmas: the scanner and the replacement callback -/

theorem wfNum_intDigits (m : NumMatch) (h : wfNum m = true) :
    m.intDigits ≠ [] ∧ ∀ c ∈ m.intDigits, c.isDigit = true := by
  simp only [wfNum, Bool.and_eq_true, Bool.not_eq_true', List.all_eq_true] at h
  exact ⟨by simpa using h.1.1, h.1.2⟩

theorem wfNum_frac (m : NumMatch) (s : Char) (d : List Char) (h : wfNum m = true)
    (hf : m.frac = some (s, d)) :
    (s = '.' ∨ s = ',') ∧ d ≠ [] ∧ ∀ c ∈ d, c.isDigit = true := by
  simp only [wfNum, Bool.and_eq_true] at h
  rw [hf] at h
  obtain ⟨-, h2⟩ := h
  simp only [Bool.and_eq_true, Bool.or_eq_true, beq_iff_eq, Bool.not_eq_true',
    List.all_eq_true] at h2
  exact ⟨h2.1.1, by simpa using h2.1.2, h2.2⟩

theorem scanF_renderNum (m : NumMatch) (hm : wfNum m = true) (k : Nat) :
    scanF (k + 1) (renderNum m) = [Tok.num m] := by
  obtain ⟨hne, hdig⟩ := wfNum_intDigits m hm
  obtain ⟨d1, frac⟩ := m
  simp only at hne hdig
  cases frac with
  | none =>
    cases d1 with
    | nil => exact absurd rfl hne
    | cons c cs =>
      have hc : c.isDigit = true := hdig c (by simp)
      have hcs : ∀ x ∈ cs, Char.isDigit x = true := fun x hx => hdig x (by simp [hx])
      simp only [renderNum, scanF, List.append_eq, List.append_nil]
      rw [dropWhile_all cs hcs, takeWhile_all cs hcs, if_pos hc]
  | some p =>
    obtain ⟨s, d2⟩ := p
    obtain ⟨hs, hd2ne, hd2⟩ := wfNum_frac ⟨d1, some (s, d2)⟩ s d2 hm rfl
    cases d1 with
    | nil => exact absurd rfl hne
    | cons c cs =>
      have hc : c.isDigit = true := hdig c (by simp)
      have hcs : ∀ x ∈ cs, Char.isDigit x = true := fun x hx => hdig x (by simp [hx])
      have hsd : s.isDigit = false := by
        rcases hs with h | h <;> subst h <;> decide
      have hsok : (s == '.' || s == ',') = true := by
        rcases hs with h | h <;> subst h <;> decide
      cases d2 with
      | nil => exact absurd rfl hd2ne
      | cons e es =>
        have he : e.isDigit = true := hd2 e (by simp)
        have hes : ∀ x ∈ (e :: es), Char.isDigit x = true := hd2
        have hcond : ((s == '.' || s == ',') && headIsDigit (e :: es)) = true := by
          simp [hsok, headIsDigit, he]
        simp only [renderNum, List.cons_append, scanF, List.append_eq]
        rw [dropWhile_run cs s (e :: es) hcs hsd, takeWhile_run cs s (e :: es) hcs hsd,
          if_pos hc]
        simp [hcond, takeWhile_all (e :: es) hes, dropWhile_all (e :: es) hes, scanF]

theorem scan_renderNum (m : NumMatch) (hm : wfNum m = true) :
    scan (renderNum m) = [Tok.num m] := by
  have h1 : renderNum m ≠ [] := by
    obtain ⟨hne, _⟩ := wfNum_intDigits m hm
    simp only [renderNum]
    intro h
    exact hne (List.append_eq_nil.mp h).1
  have hlen : (renderNum m).length = ((renderNum m).length - 1) + 1 :=
    (Nat.succ_pred_eq_of_pos (List.length_pos.mpr h1)).symm
  rw [scan, hlen, scanF_renderNum m hm]

theorem wfNum_transformNum (factor : ℚ) (m : NumMatch) :
    wfNum (transformNum factor m) = true := by
  simp only [transformNum]
  by_cases h : roundTenths (matchValue m * factor) % 10 = 0
  · rw [if_pos h]
    simp only [wfNum, Bool.and_eq_true, Bool.not_eq_true', List.all_eq_true]
    exact ⟨⟨by simpa using digitsOf_ne_nil _, digitsOf_all_digits _⟩, trivial⟩
  · rw [if_neg h]
    simp only [wfNum, Bool.and_eq_true, Bool.not_eq_true', List.all_eq_true]
    refine ⟨⟨by simpa using digitsOf_ne_nil _, digitsOf_all_digits _⟩, ?_, ?_⟩
    · by_cases hcom : numHasComma m = true <;> simp [hcom]
    · intro c hc
      simp only [List.mem_singleton] at hc
      subst hc
      exact isDigit_digitChar _ (Nat.mod_lt _ (by norm_num))

theorem matchValue_nonneg (m : NumMatch) : 0 ≤ matchValue m := by
  simp only [matchValue]
  cases hf : m.frac with
  | none => positivity
  | some p =>
    obtain ⟨s, d⟩ := p
    positivity

theorem matchValue_transformNum (factor : ℚ) (m : NumMatch) :
    matchValue (transformNum factor m) =
      (roundTenths (matchValue m * factor) : ℚ) / 10 := by
  simp only [transformNum]
  generalize roundTenths (matchValue m * factor) = n
  by_cases h : n % 10 = 0
  · rw [if_pos h]
    simp only [matchValue]
    rw [digitsVal_digitsOf]
    obtain ⟨c, hc⟩ := Nat.dvd_of_mod_eq_zero h
    subst hc
    rw [Nat.mul_div_cancel_left c (by norm_num)]
    push_cast
    ring
  · rw [if_neg h]
    simp only [matchValue]
    rw [digitsVal_digitsOf]
    have h10 : n % 10 < 10 := Nat.mod_lt _ (by norm_num)
    have hd1 : digitsVal [Nat.digitChar (n % 10)] = n % 10 := by
      rw [digitsVal_cons]
      simp [digitsVal, digitVal_digitChar _ h10]
    rw [hd1]
    simp only [List.length_cons, List.length_nil, pow_one, zero_add]
    have hdm := Nat.div_add_mod n 10
    have hcast : ((10 * (n / 10) + n % 10 : Nat) : ℚ) = (n : ℚ) := by exact_mod_cast hdm
    push_cast at hcast
    field_simp
    linarith

theorem roundTenths_bound (q : ℚ) (hq : 0 ≤ q) :
    |(roundTenths q : ℚ) - q * 10| ≤ 1 / 2 := by
  have h1 : (0 : ℚ) ≤ q * 10 + 1 / 2 := by positivity
  have hfl : (0 : ℤ) ≤ ⌊q * 10 + 1 / 2⌋ := Int.floor_nonneg.mpr h1
  have h0 : ((⌊q * 10 + 1 / 2⌋.toNat : Nat) : ℤ) = ⌊q * 10 + 1 / 2⌋ :=
    Int.toNat_of_nonneg hfl
  have hcast : ((roundTenths q : Nat) : ℚ) = ((⌊q * 10 + 1 / 2⌋ : ℤ) : ℚ) := by
    simp only [roundTenths]
    exact_mod_cast h0
  rw [hcast]
  have h2 : (⌊q * 10 + 1 / 2⌋ : ℚ) ≤ q * 10 + 1 / 2 := Int.floor_le _
  have h3 : q * 10 + 1 / 2 - 1 < (⌊q * 10 + 1 / 2⌋ : ℚ) := Int.sub_one_lt_floor _
  rw [abs_le]
  constructor <;> linarith

theorem scale_single (m : NumMatch) (hm : wfNum m = true) (a b : Nat)
    (ha : a ≠ 0) (hb : b ≠ 0) (hab : a ≠ b) :
    scaleIngredientLine (String.mk (renderNum m)) a b =
      String.mk (renderNum (transformNum ((b : ℚ) / (a : ℚ)) m)) := by
  simp only [scaleIngredientLine]
  rw [if_neg (by push_neg; exact ⟨ha, hb, hab⟩)]
  have htl : (String.mk (renderNum m)).toList = renderNum m := rfl
  rw [htl, scan_renderNum m hm]
  simp [renderTok]

/-! ## Helper lemmas: shopping-list toggle -/

theorem toggleShoppingItem_length (id : String) (l : List ShoppingItem) :
    (toggleShoppingItem id l).length = l.length := by
  induction l with
  | nil => rfl
  | cons x xs ih =>
    simp only [toggleShoppingItem]
    split <;> simp [ih]

theorem toggleShoppingItem_involution (id : String) (l : List ShoppingItem) :
    toggleShoppingItem id (toggleShoppingItem id l) = l := by
  induction l with
  | nil => rfl
  | cons x xs ih =>
    simp only [toggleShoppingItem]
    by_cases hx : (x.id == id) = true
    · rw [if_pos hx]
      simp only [toggleShoppingItem]
      rw [if_pos (show (({ x with completed := !x.completed } : ShoppingItem).id == id) = true from hx)]
      cases x with
      | mk a b c => simp [Bool.not_not]
    · rw [if_neg hx]
      simp only [toggleShoppingItem]
      rw [if_neg hx, ih]

theorem toggleShoppingItem_ids (id : String) (l : List ShoppingItem) (n : Nat) :
    ((toggleShoppingItem id l)[n]?).map ShoppingItem.id = (l[n]?).map ShoppingItem.id := by
  induction l generalizing n with
  | nil => rfl
  | cons x xs ih =>
    simp only [toggleShoppingItem]
    split
    · cases n <;> simp
    · cases n <;> simp [ih]

theorem toggleShoppingItem_texts (id : String) (l : List ShoppingItem) (n : Nat) :
    ((toggleShoppingItem id l)[n]?).map ShoppingItem.text = (l[n]?).map ShoppingItem.text := by
  induction l generalizing n with
  | nil => rfl
  | cons x xs ih =>
    simp only [toggleShoppingItem]
    split
    · cases n <;> simp
    · cases n <;> simp [ih]

theorem toggleShoppingItem_untouched (id : String) (l : List ShoppingItem) (n : Nat)
    (x : ShoppingItem) (h : l[n]? = some x) (hx : x.id ≠ id) :
    (toggleShoppingItem id l)[n]? = some x := by
  induction l generalizing n with
  | nil => simp at h
  | cons y ys ih =>
    simp only [toggleShoppingItem]
    split
    · cases n with
      | zero =>
        simp at h
        rename_i hy
        rw [beq_iff_eq] at hy
        exact absurd (h ▸ hy) hx
      | succ n => simpa using h
    · cases n with
      | zero => simpa using h
      | succ n =>
        simp only [List.getElem?_cons_succ] at h ⊢
        exact ih n h

theorem toggleShoppingItem_noMatch (id : String) (l : List ShoppingItem)
    (h : ∀ x ∈ l, x.id ≠ id) : toggleShoppingItem id l = l := by
  induction l with
  | nil => rfl
  | cons x xs ih =>
    have hx : (x.id == id) = false := beq_eq_false_iff_ne.mpr (h x (by simp))
    simp only [toggleShoppingItem, hx, Bool.false_eq_true, if_false]
    rw [ih fun y hy => h y (by simp [hy])]

/-! ## Helper lemmas: shopping-list insertion -/

theorem addToShoppingListAux_inv (mkId : Nat → String) :
    ∀ (items : List String) (k : Nat) (l : List ShoppingItem),
      noCaseDup l → noCaseDup (addToShoppingListAux mkId items k l) := by
  intro items
  induction items with
  | nil => intro k l h; exact h
  | cons t ts ih =>
    intro k l h
    simp only [addToShoppingListAux]
    by_cases hany : l.any (fun item => lowerStr item.text == lowerStr t) = true
    · rw [if_pos hany]; exact ih k l h
    · rw [if_neg hany]
      apply ih
      simp only [noCaseDup, List.pairwise_append]
      refine ⟨h, List.pairwise_singleton _ _, ?_⟩
      intro a ha b hb
      simp only [List.mem_singleton] at hb
      subst hb
      have hall : ∀ x ∈ l, ¬ lowerStr x.text = lowerStr t := by simpa using hany
      intro he
      exact hall a ha he

theorem addToShoppingList_dup_skip (mkId : Nat → String) (t : String)
    (l : List ShoppingItem) (x : ShoppingItem) (hx : x ∈ l)
    (he : lowerStr x.text = lowerStr t) :
    addToShoppingList mkId [t] l = l := by
  simp only [addToShoppingList, addToShoppingListAux]
  have hany : (l.any fun item => lowerStr item.text == lowerStr t) = true :=
    List.any_eq_true.mpr ⟨x, hx, beq_iff_eq.mpr he⟩
  rw [if_pos hany]

/-! ## Concrete evaluations of the replacement callback -/

theorem evalTransform_500 :
    transformNum (((2 : Nat) : ℚ) / ((4 : Nat) : ℚ)) ⟨['5', '0', '0'], none⟩ =
      ⟨['2', '5', '0'], none⟩ := by
  have hv : matchValue ⟨['5', '0', '0'], none⟩ = 500 := by
    have h : digitsVal ['5', '0', '0'] = 500 := by decide
    simp [matchValue, h]
  have hn : roundTenths (matchValue ⟨['5', '0', '0'], none⟩ *
      (((2 : Nat) : ℚ) / ((4 : Nat) : ℚ))) = 2500 := by
    rw [hv]
    simp only [roundTenths]
    push_cast
    norm_num
    rfl
  simp only [transformNum, hn]
  decide

theorem evalTransform_15comma_x2 :
    transformNum (((4 : Nat) : ℚ) / ((2 : Nat) : ℚ)) ⟨['1'], some (',', ['5'])⟩ =
      ⟨['3'], none⟩ := by
  have hv : matchValue ⟨['1'], some (',', ['5'])⟩ = 3 / 2 := by
    have h1 : digitsVal ['1'] = 1 := by decide
    have h5 : digitsVal ['5'] = 5 := by decide
    simp [matchValue, h1, h5]
    norm_num
  have hn : roundTenths (matchValue ⟨['1'], some (',', ['5'])⟩ *
      (((4 : Nat) : ℚ) / ((2 : Nat) : ℚ))) = 30 := by
    rw [hv]
    simp only [roundTenths]
    push_cast
    norm_num
    rfl
  simp only [transformNum, hn]
  decide

theorem evalTransform_15comma_3half :
    transformNum (((3 : Nat) : ℚ) / ((2 : Nat) : ℚ)) ⟨['1'], some (',', ['5'])⟩ =
      ⟨['2'], some (',', ['3'])⟩ := by
  have hv : matchValue ⟨['1'], some (',', ['5'])⟩ = 3 / 2 := by
    have h1 : digitsVal ['1'] = 1 := by decide
    have h5 : digitsVal ['5'] = 5 := by decide
    simp [matchValue, h1, h5]
    norm_num
  have hn : roundTenths (matchValue ⟨['1'], some (',', ['5'])⟩ *
      (((3 : Nat) : ℚ) / ((2 : Nat) : ℚ))) = 23 := by
    rw [hv]
    simp only [roundTenths]
    push_cast
    norm_num
    rfl
  simp only [transformNum, hn]
  decide

theorem evalTransform_one_down :
    transformNum (((1 : Nat) : ℚ) / ((100 : Nat) : ℚ)) ⟨['1'], none⟩ =
      ⟨['0'], none⟩ := by
  have hv : matchValue ⟨['1'], none⟩ = 1 := by
    have h : digitsVal ['1'] = 1 := by decide
    simp [matchValue, h]
  have hn : roundTenths (matchValue ⟨['1'], none⟩ *
      (((1 : Nat) : ℚ) / ((100 : Nat) : ℚ))) = 0 := by
    rw [hv]
    simp only [roundTenths]
    push_cast
    norm_num
  simp only [transformNum, hn]
  decide

theorem evalTransform_zero :
    transformNum (((100 : Nat) : ℚ) / ((1 : Nat) : ℚ)) ⟨['0'], none⟩ =
      ⟨['0'], none⟩ := by
  have hv : matchValue ⟨['0'], none⟩ = 0 := by
    have h : digitsVal ['0'] = 0 := by decide
    simp [matchValue, h]
  have hn : roundTenths (matchValue ⟨['0'], none⟩ *
      (((100 : Nat) : ℚ) / ((1 : Nat) : ℚ))) = 0 := by
    rw [hv]
    simp only [roundTenths]
    push_cast
    norm_num
  simp only [transformNum, hn]
  decide

theorem evalTransform_15dot_x2 :
    transformNum (((4 : Nat) : ℚ) / ((2 : Nat) : ℚ)) ⟨['1'], some ('.', ['5'])⟩ =
      ⟨['3'], none⟩ := by
  have hv : matchValue ⟨['1'], some ('.', ['5'])⟩ = 3 / 2 := by
    have h1 : digitsVal ['1'] = 1 := by decide
    have h5 : digitsVal ['5'] = 5 := by decide
    simp [matchValue, h1, h5]
    norm_num
  have hn : roundTenths (matchValue ⟨['1'], some ('.', ['5'])⟩ *
      (((4 : Nat) : ℚ) / ((2 : Nat) : ℚ))) = 30 := by
    rw [hv]
    simp only [roundTenths]
    push_cast
    norm_num
    rfl
  simp only [transformNum, hn]
  decide

theorem evalTransform_10_x2 :
    transformNum (((4 : Nat) : ℚ) / ((2 : Nat) : ℚ)) ⟨['1', '0'], none⟩ =
      ⟨['2', '0'], none⟩ := by
  have hv : matchValue ⟨['1', '0'], none⟩ = 10 := by
    have h : digitsVal ['1', '0'] = 10 := by decide
    simp [matchValue, h]
  have hn : roundTenths (matchValue ⟨['1', '0'], none⟩ *
      (((4 : Nat) : ℚ) / ((2 : Nat) : ℚ))) = 200 := by
    rw [hv]
    simp only [roundTenths]
    push_cast
    norm_num
    rfl
  simp only [transformNum, hn]
  decide

theorem evalTransform_320_half :
    transformNum (((2 : Nat) : ℚ) / ((4 : Nat) : ℚ)) ⟨['3'], some ('.', ['2', '0'])⟩ =
      ⟨['1'], some ('.', ['6'])⟩ := by
  have hv : matchValue ⟨['3'], some ('.', ['2', '0'])⟩ = 16 / 5 := by
    have h3 : digitsVal ['3'] = 3 := by decide
    have h20 : digitsVal ['2', '0'] = 20 := by decide
    simp [matchValue, h3, h20]
    norm_num
  have hn : roundTenths (matchValue ⟨['3'], some ('.', ['2', '0'])⟩ *
      (((2 : Nat) : ℚ) / ((4 : Nat) : ℚ))) = 16 := by
    rw [hv]
    simp only [roundTenths]
    push_cast
    norm_num
    rfl
  simp only [transformNum, hn]
  decide

/-! ## Claim theorems: the scaler -/

/-- C3: each number rewritten by `scaleIngredientLine` keeps its separator
style: a comma-styled match never produces a `'.'` in its replacement and a
dot-styled (or separator-free) match never produces a `','`; when the
replacement carries a decimal separator, it is `','` exactly when the
matched number used `','` and `'.'` exactly when it did not. -/
theorem scale_sep_style (line : String) (fromS toS : Nat)
    (h1 : fromS ≠ 0) (h2 : toS ≠ 0) (h3 : fromS ≠ toS)
    (m : NumMatch) (hm : Tok.num m ∈ scan line.toList) :
    (numHasComma m = true → '.' ∉ renderNum (transformNum ((toS : ℚ) / (fromS : ℚ)) m)) ∧
    (numHasComma m = false → ',' ∉ renderNum (transformNum ((toS : ℚ) / (fromS : ℚ)) m)) ∧
    (∀ s d, (transformNum ((toS : ℚ) / (fromS : ℚ)) m).frac = some (s, d) →
      (numHasComma m = true → s = ',') ∧ (numHasComma m = false → s = '.')) := by
  simp only [transformNum]
  set n := roundTenths (matchValue m * ((toS : ℚ) / (fromS : ℚ))) with hn
  have h10 : (n % 10).digitChar.isDigit = true :=
    isDigit_digitChar _ (Nat.mod_lt _ (by norm_num))
  by_cases hmod : n % 10 = 0
  · rw [if_pos hmod]
    refine ⟨?_, ?_, ?_⟩
    · intro _ hmem
      simp only [renderNum, List.append_nil] at hmem
      exact absurd (digitsOf_all_digits _ '.' hmem) (by decide)
    · intro _ hmem
      simp only [renderNum, List.append_nil] at hmem
      exact absurd (digitsOf_all_digits _ ',' hmem) (by decide)
    · intro s d hfd
      simp at hfd
  · rw [if_neg hmod]
    refine ⟨?_, ?_, ?_⟩
    · intro hcom hmem
      simp only [renderNum, hcom, if_true, List.mem_append] at hmem
      rcases hmem with hmem | hmem
      · exact absurd (digitsOf_all_digits _ '.' hmem) (by decide)
      · simp only [List.mem_cons, List.mem_singleton] at hmem
        rcases hmem with hmem | hmem | hmem
        · exact absurd hmem (by decide)
        · rw [← hmem] at h10
          exact absurd h10 (by decide)
        · simp at hmem
    · intro hcom hmem
      simp only [renderNum, hcom, Bool.false_eq_true, if_false, List.mem_append] at hmem
      rcases hmem with hmem | hmem
      · exact absurd (digitsOf_all_digits _ ',' hmem) (by decide)
      · simp only [List.mem_cons, List.mem_singleton] at hmem
        rcases hmem with hmem | hmem | hmem
        · exact absurd hmem (by decide)
        · rw [← hmem] at h10
          exact absurd h10 (by decide)
        · simp at hmem
    · intro s d hfd
      simp only [Option.some.injEq, Prod.mk.injEq] at hfd
      obtain ⟨hs, -⟩ := hfd
      constructor <;> intro h
      · rw [h] at hs
        simpa using hs.symm
      · rw [h] at hs
        simpa using hs.symm

/-- Witness for C3 at a concrete line. -/
theorem scale_sep_style_witness :
    (numHasComma ⟨['1'], some (',', ['5'])⟩ = true →
      '.' ∉ renderNum (transformNum (((3 : Nat) : ℚ) / ((2 : Nat) : ℚ)) ⟨['1'], some (',', ['5'])⟩)) ∧
    (numHasComma ⟨['1'], some (',', ['5'])⟩ = false →
      ',' ∉ renderNum (transformNum (((3 : Nat) : ℚ) / ((2 : Nat) : ℚ)) ⟨['1'], some (',', ['5'])⟩)) ∧
    (∀ s d, (transformNum (((3 : Nat) : ℚ) / ((2 : Nat) : ℚ)) ⟨['1'], some (',', ['5'])⟩).frac =
        some (s, d) →
      (numHasComma ⟨['1'], some (',', ['5'])⟩ = true → s = ',') ∧
      (numHasComma ⟨['1'], some (',', ['5'])⟩ = false → s = '.')) :=
  scale_sep_style "1,5kg" 2 3 (by decide) (by decide) (by decide)
    ⟨['1'], some (',', ['5'])⟩ (by decide)

/-- C7: the two concrete scaling examples of the spec, together with the
general shape of each rewritten number: parse treating `','` as `'.'`,
multiply by the factor, round to one decimal place; stripping a trailing
`.0` and restoring `','` never change the value. -/
theorem scaleIngredientLine_spec :
    scaleIngredientLine "500g Nudeln" 4 2 = "250g Nudeln" ∧
    scaleIngredientLine "1,5kg Mehl" 2 4 = "3kg Mehl" ∧
    (∀ (factor : ℚ) (m : NumMatch),
      matchValue (transformNum factor m) = (roundTenths (matchValue m * factor) : ℚ) / 10) ∧
    ∀ (factor : ℚ) (m : NumMatch),
      ((transformNum factor m).frac = none ↔ roundTenths (matchValue m * factor) % 10 = 0) := by
  refine ⟨?_, ?_, fun factor m => matchValue_transformNum factor m, ?_⟩
  · have hsc : scan "500g Nudeln".toList =
        [Tok.num ⟨['5', '0', '0'], none⟩, Tok.ch 'g', Tok.ch ' ', Tok.ch 'N',
         Tok.ch 'u', Tok.ch 'd', Tok.ch 'e', Tok.ch 'l', Tok.ch 'n'] := by decide
    simp only [scaleIngredientLine]
    rw [if_neg (by decide)]
    rw [hsc]
    simp only [List.map_cons, List.map_nil, renderTok, evalTransform_500]
    decide
  · have hsc : scan "1,5kg Mehl".toList =
        [Tok.num ⟨['1'], some (',', ['5'])⟩, Tok.ch 'k', Tok.ch 'g', Tok.ch ' ',
         Tok.ch 'M', Tok.ch 'e', Tok.ch 'h', Tok.ch 'l'] := by decide
    simp only [scaleIngredientLine]
    rw [if_neg (by decide)]
    rw [hsc]
    simp only [List.map_cons, List.map_nil, renderTok, evalTransform_15comma_x2]
    decide
  · intro factor m
    simp only [transformNum]
    by_cases h : roundTenths (matchValue m * factor) % 10 = 0
    · rw [if_pos h]
      simp [h]
    · rw [if_neg h]
      simp [h]

/-! ## Round-trip drift bound -/

theorem roundTrip_value_bound (v0 f g : ℚ) (hv0 : 0 ≤ v0) (hf : 0 < f) (hg : 0 < g)
    (hfg : f * g = 1) (v1 v2 : ℚ)
    (h1 : v1 = (roundTenths (v0 * f) : ℚ) / 10)
    (h2 : v2 = (roundTenths (v1 * g) : ℚ) / 10)
    (hv1 : 0 ≤ v1) :
    |v2 - v0| ≤ 1 / 20 + g / 20 := by
  have hb1 := roundTenths_bound (v0 * f) (by positivity)
  have hb2 := roundTenths_bound (v1 * g) (by positivity)
  have hd1 : |v1 - v0 * f| ≤ 1 / 20 := by
    rw [h1]
    rw [abs_le] at hb1 ⊢
    constructor <;> linarith
  have hd2 : |v2 - v1 * g| ≤ 1 / 20 := by
    rw [h2]
    rw [abs_le] at hb2 ⊢
    constructor <;> linarith
  have he1 : v1 * g - v0 = g * (v1 - v0 * f) := by linear_combination v0 * hfg
  have he2 : |v1 * g - v0| ≤ g * (1 / 20) := by
    rw [he1, abs_mul, abs_of_pos hg]
    exact mul_le_mul_of_nonneg_left hd1 (le_of_lt hg)
  calc |v2 - v0| ≤ |v2 - v1 * g| + |v1 * g - v0| := abs_sub_le v2 (v1 * g) v0
    _ ≤ 1 / 20 + g * (1 / 20) := add_le_add hd2 he2
    _ = 1 / 20 + g / 20 := by ring

/-- C8 (amended): for a line that is a single number, scaling from `a` to `b`
servings and back yields a single number again, whose value differs from the
original by at most `1/20 + (a/b)/20` — the half-unit of the last decimal
place, amplified by the return factor `a/b` for the first rounding. -/
theorem scale_roundTrip_bound (m : NumMatch) (a b : Nat)
    (hm : wfNum m = true) (ha : a ≠ 0) (hb : b ≠ 0) :
    ∃ m2 : NumMatch,
      scan (scaleIngredientLine (scaleIngredientLine (String.mk (renderNum m)) a b) b a).toList
        = [Tok.num m2] ∧
      |matchValue m2 - matchValue m| ≤ 1 / 20 + (a : ℚ) / (20 * (b : ℚ)) := by
  have hA : (0 : ℚ) < (a : ℚ) := by exact_mod_cast Nat.pos_of_ne_zero ha
  have hB : (0 : ℚ) < (b : ℚ) := by exact_mod_cast Nat.pos_of_ne_zero hb
  by_cases hab : a = b
  · subst hab
    refine ⟨m, ?_, ?_⟩
    · have hid : scaleIngredientLine (String.mk (renderNum m)) a a = String.mk (renderNum m) := by
        simp [scaleIngredientLine]
      rw [hid, hid]
      have htl : (String.mk (renderNum m)).toList = renderNum m := rfl
      rw [htl]
      exact scan_renderNum m hm
    · rw [sub_self, abs_zero]
      positivity
  · have ha' : (a : ℚ) ≠ 0 := ne_of_gt hA
    have hb' : (b : ℚ) ≠ 0 := ne_of_gt hB
    have hwf1 : wfNum (transformNum ((b : ℚ) / (a : ℚ)) m) = true := wfNum_transformNum _ m
    have hs1 := scale_single m hm a b ha hb hab
    have hs2 := scale_single (transformNum ((b : ℚ) / (a : ℚ)) m) hwf1 b a hb ha
      fun he => hab he.symm
    refine ⟨transformNum ((a : ℚ) / (b : ℚ)) (transformNum ((b : ℚ) / (a : ℚ)) m), ?_, ?_⟩
    · rw [hs1, hs2]
      have htl : (String.mk (renderNum
          (transformNum ((a : ℚ) / (b : ℚ)) (transformNum ((b : ℚ) / (a : ℚ)) m)))).toList =
          renderNum (transformNum ((a : ℚ) / (b : ℚ)) (transformNum ((b : ℚ) / (a : ℚ)) m)) := rfl
      rw [htl]
      exact scan_renderNum _ (wfNum_transformNum _ _)
    · have hfg : ((b : ℚ) / (a : ℚ)) * ((a : ℚ) / (b : ℚ)) = 1 := by
        field_simp
      have hbnd := roundTrip_value_bound (matchValue m) ((b : ℚ) / (a : ℚ)) ((a : ℚ) / (b : ℚ))
        (matchValue_nonneg m) (div_pos hB hA) (div_pos hA hB) hfg
        (matchValue (transformNum ((b : ℚ) / (a : ℚ)) m))
        (matchValue (transformNum ((a : ℚ) / (b : ℚ)) (transformNum ((b : ℚ) / (a : ℚ)) m)))
        (matchValue_transformNum _ m) (matchValue_transformNum _ _)
        (matchValue_nonneg _)
      calc |matchValue (transformNum ((a : ℚ) / (b : ℚ)) (transformNum ((b : ℚ) / (a : ℚ)) m)) -
            matchValue m| ≤ 1 / 20 + ((a : ℚ) / (b : ℚ)) / 20 := hbnd
        _ = 1 / 20 + (a : ℚ) / (20 * (b : ℚ)) := by ring

/-- Witness for the amended C8 at the line `"1"`, scaled 2 → 3 → 2. -/
theorem scale_roundTrip_bound_witness :
    ∃ m2 : NumMatch,
      scan (scaleIngredientLine (scaleIngredientLine
          (String.mk (renderNum ⟨['1'], none⟩)) 2 3) 3 2).toList = [Tok.num m2] ∧
      |matchValue m2 - matchValue ⟨['1'], none⟩| ≤
        1 / 20 + ((2 : Nat) : ℚ) / (20 * ((3 : Nat) : ℚ)) :=
  scale_roundTrip_bound ⟨['1'], none⟩ 2 3 (by decide) (by decide) (by decide)

/-- C8 (counterexample): the claimed per-place drift bound fails.  Scaling
`"1"` from 100 servings to 1 gives `"0"` (0.01 rounds to 0.0, the trailing
`.0` is stripped), and scaling back gives `"0"` again: the value drifts by a
full unit, far beyond 0.1 per rounding step.  Moreover on `"1.5.10"` the
round trip 2 → 4 → 2 produces `"1.6"`: the rewritten numbers `3` and `20`
merge with the literal `'.'` between them into the single number `3.20`, so
the non-numeric text is not preserved either. -/
theorem scale_roundTrip_counterexample :
    scaleIngredientLine "1" 100 1 = "0" ∧
    scaleIngredientLine (scaleIngredientLine "1" 100 1) 1 100 = "0" ∧
    ¬ (|(0 : ℚ) - 1| ≤ 2 * (1 / 10)) ∧
    scaleIngredientLine (scaleIngredientLine "1.5.10" 2 4) 4 2 = "1.6" := by
  have h1 : scaleIngredientLine "1" 100 1 = "0" := by
    have hsc : scan "1".toList = [Tok.num ⟨['1'], none⟩] := by decide
    simp only [scaleIngredientLine]
    rw [if_neg (by decide)]
    rw [hsc]
    simp only [List.map_cons, List.map_nil, renderTok, evalTransform_one_down]
    decide
  have h2 : scaleIngredientLine "0" 1 100 = "0" := by
    have hsc : scan "0".toList = [Tok.num ⟨['0'], none⟩] := by decide
    simp only [scaleIngredientLine]
    rw [if_neg (by decide)]
    rw [hsc]
    simp only [List.map_cons, List.map_nil, renderTok, evalTransform_zero]
    decide
  have h3 : scaleIngredientLine "1.5.10" 2 4 = "3.20" := by
    have hsc : scan "1.5.10".toList =
        [Tok.num ⟨['1'], some ('.', ['5'])⟩, Tok.ch '.', Tok.num ⟨['1', '0'], none⟩] := by
      decide
    simp only [scaleIngredientLine]
    rw [if_neg (by decide)]
    rw [hsc]
    simp only [List.map_cons, List.map_nil, renderTok, evalTransform_15dot_x2,
      evalTransform_10_x2]
    decide
  have h4 : scaleIngredientLine "3.20" 4 2 = "1.6" := by
    have hsc : scan "3.20".toList = [Tok.num ⟨['3'], some ('.', ['2', '0'])⟩] := by decide
    simp only [scaleIngredientLine]
    rw [if_neg (by decide)]
    rw [hsc]
    simp only [List.map_cons, List.map_nil, renderTok, evalTransform_320_half]
    decide
  refine ⟨h1, by rw [h1]; exact h2, by norm_num, by rw [h3]; exact h4⟩

/-! ## Claim theorems: store, draft, retry -/

/-- C10: `toggleShoppingItem(id)` changes only the `completed` flag of the
matching item: ids and texts are unchanged at every position, items whose id
differs are untouched, length (hence order) is preserved, toggling twice
restores the list, and when no item carries the id the list is unchanged. -/
theorem toggleShoppingItem_frame (id : String) (l : List ShoppingItem) :
    (toggleShoppingItem id l).length = l.length ∧
    (∀ n : Nat, ((toggleShoppingItem id l)[n]?).map ShoppingItem.id = (l[n]?).map ShoppingItem.id) ∧
    (∀ n : Nat, ((toggleShoppingItem id l)[n]?).map ShoppingItem.text = (l[n]?).map ShoppingItem.text) ∧
    (∀ (n : Nat) (x : ShoppingItem), l[n]? = some x → x.id ≠ id →
      (toggleShoppingItem id l)[n]? = some x) ∧
    toggleShoppingItem id (toggleShoppingItem id l) = l ∧
    ((∀ x ∈ l, x.id ≠ id) → toggleShoppingItem id l = l) :=
  ⟨toggleShoppingItem_length id l,
   fun n => toggleShoppingItem_ids id l n,
   fun n => toggleShoppingItem_texts id l n,
   fun n x h hx => toggleShoppingItem_untouched id l n x h hx,
   toggleShoppingItem_involution id l,
   toggleShoppingItem_noMatch id l⟩

/-- Witness for C10 at a concrete list. -/
theorem toggleShoppingItem_frame_witness :
    toggleShoppingItem "z" [(⟨"a", "Milch", false⟩ : ShoppingItem)] = [⟨"a", "Milch", false⟩] ∧
    (toggleShoppingItem "b"
        [(⟨"a", "Milch", false⟩ : ShoppingItem), ⟨"b", "Eier", false⟩])[0]? =
      some ⟨"a", "Milch", false⟩ :=
  ⟨(toggleShoppingItem_frame "z" [⟨"a", "Milch", false⟩]).2.2.2.2.2 (by decide),
   (toggleShoppingItem_frame "b" [⟨"a", "Milch", false⟩, ⟨"b", "Eier", false⟩]).2.2.2.1 0
     ⟨"a", "Milch", false⟩ (by decide) (by decide)⟩

/-- C5: `getSavedRecipes` and `getShoppingList` fail soft: an absent blob and
a blob the JSON parser rejects both yield the empty collection, and the
functions are total (no error escapes). -/
theorem list_fails_soft (parseR : String → Except String (List Recipe))
    (parseS : String → Except String (List ShoppingItem)) (s : String) (eR eS : String) :
    getSavedRecipes none parseR = [] ∧ getShoppingList none parseS = [] ∧
    (parseR s = .error eR → getSavedRecipes (some s) parseR = []) ∧
    (parseS s = .error eS → getShoppingList (some s) parseS = []) := by
  refine ⟨rfl, rfl, ?_, ?_⟩
  · intro h
    simp only [getSavedRecipes]
    by_cases hs : s = ""
    · rw [if_pos hs]
    · rw [if_neg hs, h]
  · intro h
    simp only [getShoppingList]
    by_cases hs : s = ""
    · rw [if_pos hs]
    · rw [if_neg hs, h]

/-- Witness for C5 at a concretely failing parser. -/
theorem list_fails_soft_witness :
    getSavedRecipes (some "oops") (fun _ => .error "bad json") = [] ∧
    getShoppingList (some "oops") (fun _ => .error "bad json") = [] :=
  ⟨(list_fails_soft (fun _ => .error "bad json") (fun _ => .error "bad json")
      "oops" "bad json" "bad json").2.2.1 rfl,
   (list_fails_soft (fun _ => .error "bad json") (fun _ => .error "bad json")
      "oops" "bad json" "bad json").2.2.2 rfl⟩

/-- C9: the draft lifecycle.  `saveDraft` stores (overwrites) the single
draft record exactly when the prompt trims to something non-empty, removes
it when the prompt is empty or whitespace-only, and a successful generation
(`btn-generate` with a recipe produced) clears the draft.  The store holds
at most one record by construction (`Option RecipeDraft`). -/
theorem draft_lifecycle (p d s w : String) (st : Option RecipeDraft) (r : Recipe) :
    (strTrim p ≠ "" → saveDraft p d s w st = some ⟨p, d, s, w⟩) ∧
    (strTrim p = "" → saveDraft p d s w st = none) ∧
    (p ≠ "" → generateClickDraftEffect p (some r) st = none) := by
  refine ⟨?_, ?_, ?_⟩
  · intro h
    have hp : p ≠ "" := by
      intro he
      rw [he] at h
      exact h rfl
    simp only [saveDraft]
    rw [if_pos ⟨hp, h⟩]
  · intro h
    simp only [saveDraft]
    rw [if_neg]
    intro hcon
    exact hcon.2 h
  · intro h
    simp only [generateClickDraftEffect]
    rw [if_neg h]
    rfl

/-- Witness for C9 at concrete prompts. -/
theorem draft_lifecycle_witness :
    saveDraft "Nudeln" "leicht" "2" "" none = some ⟨"Nudeln", "leicht", "2", ""⟩ ∧
    saveDraft "   " "leicht" "2" "" (some ⟨"x", "", "", ""⟩) = none ∧
    generateClickDraftEffect "Nudeln" (some pizzaRecipe) (some ⟨"Nudeln", "", "", ""⟩) = none :=
  ⟨(draft_lifecycle "Nudeln" "leicht" "2" "" none pizzaRecipe).1 (by decide),
   (draft_lifecycle "   " "leicht" "2" "" (some ⟨"x", "", "", ""⟩) pizzaRecipe).2.1 (by decide),
   (draft_lifecycle "Nudeln" "" "" "" (some ⟨"Nudeln", "", "", ""⟩) pizzaRecipe).2.2 (by decide)⟩

/-- C2 (evidence): an operation that fails with a rate-limit error on every
one of the 3 attempts makes `retryWithBackoff` rethrow the operation's own
last error, not the terminal `"Server-Limit erreicht."` error — the terminal
throw after the loop is unreachable for `maxRetries = 3`. -/
theorem retryWithBackoff_exhaustion_rethrows :
    retryWithBackoff (fun _ => (Except.error "HTTP 429" : Except String Nat)) 3 =
      ⟨Except.error "HTTP 429", 3, [3000, 6000]⟩ ∧
    ("HTTP 429" : String) ≠ "Server-Limit erreicht." := by
  constructor
  · decide
  · decide

/-- C4: an operation that fails with rate-limit errors on its first two
invocations and succeeds on the third makes `retryWithBackoff` (with
`maxRetries = 3`) return the success value after exactly 3 invocations,
having waited 3000 ms and then 6000 ms between the attempts. -/
theorem retryWithBackoff_two_rate_limits_then_success {T : Type}
    (op : Nat → Except String T) (v : T) (e0 e1 : String)
    (h0 : op 0 = .error e0) (h0r : isRateLimitError e0 = true)
    (h1 : op 1 = .error e1) (h1r : isRateLimitError e1 = true)
    (h2 : op 2 = .ok v) :
    retryWithBackoff op 3 = ⟨.ok v, 3, [3000, 6000]⟩ := by
  show retryLoopF op 3 (2 + 1) 0 3000 [] = _
  rw [retryLoopF, h0]
  simp only [h0r, true_and]
  rw [if_pos (by norm_num)]
  show retryLoopF op 3 (1 + 1) 1 6000 [3000] = _
  rw [retryLoopF, h1]
  simp only [h1r, true_and]
  rw [if_pos (by norm_num)]
  show retryLoopF op 3 (0 + 1) 2 12000 [6000, 3000] = _
  rw [retryLoopF, h2]
  simp

/-- Witness for C4 at a concrete operation. -/
theorem retryWithBackoff_two_rate_limits_then_success_witness :
    retryWithBackoff
        (fun n => if n = 0 then Except.error "Fehler 429"
          else if n = 1 then Except.error "Quota erreicht" else Except.ok 7) 3 =
      ⟨Except.ok 7, 3, [3000, 6000]⟩ :=
  retryWithBackoff_two_rate_limits_then_success _ 7 "Fehler 429" "Quota erreicht"
    rfl (by decide) rfl (by decide) rfl

/-- C6: the shopping list never holds two items with case-insensitively
equal texts: `addToShoppingList` preserves the invariant for any batch, and
adding a text that differs only in case from a stored item's text leaves
the list (hence its size) unchanged. -/
theorem addToShoppingList_preserves (mkId : Nat → String) (items : List String)
    (l : List ShoppingItem) (t : String) :
    (noCaseDup l → noCaseDup (addToShoppingList mkId items l)) ∧
    ((∃ x ∈ l, lowerStr x.text = lowerStr t) → addToShoppingList mkId [t] l = l) :=
  ⟨fun h => addToShoppingListAux_inv mkId items 0 l h,
   fun he => by
    obtain ⟨x, hx, hxe⟩ := he
    exact addToShoppingList_dup_skip mkId t l x hx hxe⟩

/-- Witness for C6 at a concrete list and batch. -/
theorem addToShoppingList_preserves_witness :
    noCaseDup (addToShoppingList (fun _ => "n1") ["MILCH"] [⟨"a", "Milch", false⟩]) ∧
    addToShoppingList (fun _ => "n1") ["MILCH"] [⟨"a", "Milch", false⟩] =
      [⟨"a", "Milch", false⟩] :=
  ⟨(addToShoppingList_preserves (fun _ => "n1") ["MILCH"] [⟨"a", "Milch", false⟩] "MILCH").1
      (by decide),
   (addToShoppingList_preserves (fun _ => "n1") ["MILCH"] [⟨"a", "Milch", false⟩] "MILCH").2
      (by decide)⟩

/-- C1 (counterexample): `saveRecipeToStorage` compares names with `===`,
so a stored `"Pasta"` and an incoming `"pasta"` are case-insensitively equal
yet raise no conflict: without any confirmation the save succeeds and
appends, instead of returning `false` and leaving the store unchanged. -/
theorem saveRecipeToStorage_case_sensitivity_counterexample :
    lowerStr pastaLower.recipeName = lowerStr pastaUpper.recipeName ∧
    pastaLower.recipeName ≠ pastaUpper.recipeName ∧
    saveRecipeToStorage false pastaLower [pastaUpper] = (true, [pastaUpper, pastaLower]) := by
  refine ⟨by decide, by decide, by decide⟩

/-- C1 (amended): with the exact (case-sensitive) name comparison the code
uses, `saveRecipeToStorage` detects a conflict exactly when a stored name
equals the incoming name: no conflict appends, a conflict without
confirmation returns `false` leaving the store unchanged, and a conflict
with confirmation replaces the first matching entry in place. -/
theorem saveRecipeToStorage_exact_match_spec (confirmOverwrite : Bool) (r : Recipe)
    (saved : List Recipe) :
    ((∀ sr ∈ saved, sr.recipeName ≠ r.recipeName) →
      saveRecipeToStorage confirmOverwrite r saved = (true, saved ++ [r])) ∧
    ((∃ sr ∈ saved, sr.recipeName = r.recipeName) →
      saveRecipeToStorage false r saved = (false, saved)) ∧
    ((∃ sr ∈ saved, sr.recipeName = r.recipeName) →
      ∃ i : Nat, ∃ hi : i < saved.length,
        (saved.get ⟨i, hi⟩).recipeName = r.recipeName ∧
        (∀ j : Nat, ∀ hj : j < saved.length, j < i →
          (saved.get ⟨j, hj⟩).recipeName ≠ r.recipeName) ∧
        saveRecipeToStorage true r saved = (true, saved.set i r)) := by
  refine ⟨?_, ?_, ?_⟩
  · intro h
    have hany : saved.any (fun sr => sr.recipeName == r.recipeName) = false :=
      List.any_eq_false.mpr fun x hx => by simpa using h x hx
    simp only [saveRecipeToStorage, hany, Bool.false_eq_true, if_false]
  · intro hex
    obtain ⟨x, hx, he⟩ := hex
    have hany : saved.any (fun sr => sr.recipeName == r.recipeName) = true :=
      List.any_eq_true.mpr ⟨x, hx, beq_iff_eq.mpr he⟩
    simp only [saveRecipeToStorage, hany, if_true, Bool.not_false, if_pos]
  · intro hex
    have hex' : ∃ sr ∈ saved, (fun sr => sr.recipeName == r.recipeName) sr = true := by
      obtain ⟨x, hx, he⟩ := hex
      exact ⟨x, hx, beq_iff_eq.mpr he⟩
    have hidx := List.findIdx_lt_length_of_exists hex'
    refine ⟨saved.findIdx (fun sr => sr.recipeName == r.recipeName), hidx, ?_, ?_, ?_⟩
    · have hp := List.findIdx_getElem (w := hidx)
      simp only [List.get_eq_getElem]
      exact beq_iff_eq.mp hp
    · intro j hj hlt he
      have hf := List.not_of_lt_findIdx hlt
      simp only [List.get_eq_getElem] at he
      rw [beq_iff_eq.mpr he] at hf
      exact Bool.true_eq_false ▸ hf
    · have hany : saved.any (fun sr => sr.recipeName == r.recipeName) = true :=
        List.any_eq_true.mpr hex'
      simp only [saveRecipeToStorage, hany, if_true, Bool.not_true, Bool.false_eq_true, if_false]

/-- Witness for the amended C1 at concrete collections. -/
theorem saveRecipeToStorage_exact_match_spec_witness :
    saveRecipeToStorage false pizzaRecipe [pastaUpper] = (true, [pastaUpper, pizzaRecipe]) ∧
    saveRecipeToStorage false pastaV2 [pastaUpper] = (false, [pastaUpper]) ∧
    (∃ i : Nat, ∃ hi : i < ([pastaUpper] : List Recipe).length,
      (([pastaUpper] : List Recipe).get ⟨i, hi⟩).recipeName = pastaV2.recipeName ∧
      (∀ j : Nat, ∀ hj : j < ([pastaUpper] : List Recipe).length, j < i →
        (([pastaUpper] : List Recipe).get ⟨j, hj⟩).recipeName ≠ pastaV2.recipeName) ∧
      saveRecipeToStorage true pastaV2 [pastaUpper] =
        (true, ([pastaUpper] : List Recipe).set i pastaV2)) :=
  ⟨(saveRecipeToStorage_exact_match_spec false pizzaRecipe [pastaUpper]).1 (by decide),
   (saveRecipeToStorage_exact_match_spec false pastaV2 [pastaUpper]).2.1 (by decide),
   (saveRecipeToStorage_exact_match_spec true pastaV2 [pastaUpper]).2.2 (by decide)⟩

end RecipeApp
